import Mathlib

/-!
Verification of the Visionary audio core: the PCM-to-WAV encoder
(src/unnamed/part_002, pcmToWav), the audio-graph lifecycle of the
Visualizer component (src/components/Visualizer.tsx), and the speech
entry point (src/services/geminiService.ts, apiGenerateSpeech).

The browser primitives the code leans on are embedded explicitly:
window.atob is the WHATWG forgiving-base64 decoder, DataView writes are
byte-list updates at an offset, and the Web Audio graph is a list of
edges from media-element source nodes to the analyser or destination.
-/

namespace Visionary

/-! ## Byte-level primitives (DataView semantics)

DataView.setUint32(off, v, true) stores the low 32 bits of v
little-endian; setUint32(off, v, false) stores them big-endian;
setUint16 stores the low 16 bits.  Bytes are Nat values < 256. -/

/-- The four little-endian bytes of v mod 2^32, as written by
DataView.setUint32 with littleEndian = true. -/
def toLE4 (v : Nat) : List Nat :=
  [v % 256, v / 256 % 256, v / 65536 % 256, v / 16777216 % 256]

/-- The two little-endian bytes of v mod 2^16, as written by
DataView.setUint16 with littleEndian = true. -/
def toLE2 (v : Nat) : List Nat :=
  [v % 256, v / 256 % 256]

/-- The four big-endian bytes of v mod 2^32, as written by
DataView.setUint32 with littleEndian = false (used for the FourCC
codes "RIFF", "WAVE", "fmt ", "data"). -/
def toBE4 (v : Nat) : List Nat :=
  [v / 16777216 % 256, v / 65536 % 256, v / 256 % 256, v % 256]

/-- Overwrite the bytes of buf starting at offset off with vals.
All header writes are in bounds of the 44-byte buffer; the
out-of-bounds case (where DataView would throw) is never reached. -/
def writeBytes : List Nat → Nat → List Nat → List Nat
  | buf, _, [] => buf
  | [], _, _ :: _ => []
  | _ :: buf, 0, v :: vs => v :: writeBytes buf 0 vs
  | b :: buf, off + 1, vs => b :: writeBytes buf off vs

def setUint32LE (buf : List Nat) (off v : Nat) : List Nat :=
  writeBytes buf off (toLE4 v)

def setUint32BE (buf : List Nat) (off v : Nat) : List Nat :=
  writeBytes buf off (toBE4 v)

def setUint16LE (buf : List Nat) (off v : Nat) : List Nat :=
  writeBytes buf off (toLE2 v)

/-- The 44-byte WAV header built by pcmToWav (src/unnamed/part_002):
a 44-byte ArrayBuffer written through a DataView, one write per source
line, in source order. -/
def wavHeaderBytes (dataLen sampleRate : Nat) : List Nat :=
  let view := List.replicate 44 0
  let view := setUint32BE view 0 0x52494646
  let view := setUint32LE view 4 (36 + dataLen)
  let view := setUint32BE view 8 0x57415645
  let view := setUint32BE view 12 0x666d7420
  let view := setUint32LE view 16 16
  let view := setUint16LE view 20 1
  let view := setUint16LE view 22 1
  let view := setUint32LE view 24 sampleRate
  let view := setUint32LE view 28 (sampleRate * 2)
  let view := setUint16LE view 32 2
  let view := setUint16LE view 34 16
  let view := setUint32BE view 36 0x64617461
  let view := setUint32LE view 40 dataLen
  view

/-! ## window.atob (WHATWG forgiving-base64 decode) -/

/-- Value of a base64 alphabet character, none for anything else
(including the padding character, which must be stripped first). -/
def b64Val (c : Char) : Option Nat :=
  if 'A' ≤ c ∧ c ≤ 'Z' then some (c.toNat - 65)
  else if 'a' ≤ c ∧ c ≤ 'z' then some (c.toNat - 97 + 26)
  else if '0' ≤ c ∧ c ≤ '9' then some (c.toNat - 48 + 52)
  else if c = '+' then some 62
  else if c = '/' then some 63
  else none

/-- Decode padding-stripped base64 characters into bytes: each group of
four 6-bit values yields three bytes; a final group of two or three
values yields one or two bytes (leftover low bits discarded, as in
forgiving-base64); a dangling single character is an error. -/
def b64DecodeChars : List Char → Option (List Nat)
  | [] => some []
  | [_] => none
  | [c1, c2] => do
      let v1 ← b64Val c1
      let v2 ← b64Val c2
      some [v1 * 4 + v2 / 16]
  | [c1, c2, c3] => do
      let v1 ← b64Val c1
      let v2 ← b64Val c2
      let v3 ← b64Val c3
      some [v1 * 4 + v2 / 16, v2 % 16 * 16 + v3 / 4]
  | c1 :: c2 :: c3 :: c4 :: rest => do
      let v1 ← b64Val c1
      let v2 ← b64Val c2
      let v3 ← b64Val c3
      let v4 ← b64Val c4
      let tail ← b64DecodeChars rest
      some ([v1 * 4 + v2 / 16, v2 % 16 * 16 + v3 / 4, v3 % 4 * 64 + v4] ++ tail)

/-- ASCII whitespace, which forgiving-base64 removes before decoding. -/
def isB64Whitespace (c : Char) : Bool :=
  c = ' ' || c = '\t' || c = '\n' || c = '\r' || c = '\x0c'

/-- Strip one or two trailing padding characters. -/
def stripPad (l : List Char) : List Char :=
  match l.reverse with
  | '=' :: '=' :: rest => rest.reverse
  | '=' :: rest => rest.reverse
  | _ => l

/-- window.atob: forgiving-base64 decode.  Remove ASCII whitespace; if
the length is a multiple of four, strip up to two trailing padding
characters; fail if the remaining length is 1 mod 4 or any character is
outside the base64 alphabet; otherwise decode to bytes.  none models
the InvalidCharacterError the browser throws. -/
def atob (s : String) : Option (List Nat) :=
  let l := s.data.filter (fun c => !(isB64Whitespace c))
  let l := if l.length % 4 = 0 then stripPad l else l
  if l.length % 4 = 1 then none else b64DecodeChars l

/-! ## pcmToWav (src/unnamed/part_002) -/

/-- A browser Blob: raw bytes plus a MIME type. -/
structure JsBlob where
  bytes : List Nat
  mime : String
deriving DecidableEq

/-- pcmToWav from src/unnamed/part_002: atob-decode the base64 input
(the browser throws on malformed input: modelled as none), build the
44-byte header via DataView writes, and return the Blob of header
followed by the raw PCM bytes, typed audio/wav. -/
def pcmToWav (base64 : String) (sampleRate : Nat) : Option JsBlob :=
  (atob base64).map (fun pcmBuffer =>
    { bytes := wavHeaderBytes pcmBuffer.length sampleRate ++ pcmBuffer
      mime := "audio/wav" })

/-- The header writes flatten to this byte layout (offsets 0, 4, 8, 12,
16, 20, 22, 24, 28, 32, 34, 36, 40 of the table in the spec). -/
theorem wavHeaderBytes_eq (n r : Nat) :
    wavHeaderBytes n r =
      [0x52, 0x49, 0x46, 0x46] ++ toLE4 (36 + n) ++
      [0x57, 0x41, 0x56, 0x45] ++ [0x66, 0x6D, 0x74, 0x20] ++
      [16, 0, 0, 0] ++ [1, 0] ++ [1, 0] ++
      toLE4 r ++ toLE4 (r * 2) ++ [2, 0] ++ [16, 0] ++
      [0x64, 0x61, 0x74, 0x61] ++ toLE4 n := by
  rfl

/-! ## A standard WAV reader (second definition, for the round trip) -/

/-- Little-endian value of a byte list. -/
def readLE : List Nat → Nat
  | [] => 0
  | b :: bs => b + 256 * readLE bs

/-- What a WAV reader reports about a container. -/
structure WavInfo where
  sampleRate : Nat
  numChannels : Nat
  bitsPerSample : Nat
  data : List Nat
deriving DecidableEq

/-- Modelled from the spec: a standard WAV reader for the container
layout of the format table (the repository contains no reader; playback
is delegated to the browser).  It checks the RIFF/WAVE/fmt /data magic
bytes, the PCM format tag and that the declared data length fits, then
reports the little-endian sample rate, channel count and bit depth
together with the data bytes. -/
def parseWav (bytes : List Nat) : Option WavInfo :=
  if bytes.take 4 = [0x52, 0x49, 0x46, 0x46] ∧
      (bytes.drop 8).take 4 = [0x57, 0x41, 0x56, 0x45] ∧
      (bytes.drop 12).take 4 = [0x66, 0x6D, 0x74, 0x20] ∧
      readLE ((bytes.drop 16).take 4) = 16 ∧
      readLE ((bytes.drop 20).take 2) = 1 ∧
      (bytes.drop 36).take 4 = [0x64, 0x61, 0x74, 0x61] ∧
      44 + readLE ((bytes.drop 40).take 4) ≤ bytes.length
  then some
    { sampleRate := readLE ((bytes.drop 24).take 4)
      numChannels := readLE ((bytes.drop 22).take 2)
      bitsPerSample := readLE ((bytes.drop 34).take 2)
      data := (bytes.drop 44).take (readLE ((bytes.drop 40).take 4)) }
  else none

/-- The full container bytes of pcmToWav in flattened form: the header
fields at their offsets, followed by the data bytes. -/
def wavBytesFlat (r : Nat) (pcm : List Nat) : List Nat :=
  [0x52, 0x49, 0x46, 0x46] ++ toLE4 (36 + pcm.length) ++
  [0x57, 0x41, 0x56, 0x45] ++ [0x66, 0x6D, 0x74, 0x20] ++
  [16, 0, 0, 0] ++ [1, 0] ++ [1, 0] ++
  toLE4 r ++ toLE4 (r * 2) ++ [2, 0] ++ [16, 0] ++
  [0x64, 0x61, 0x74, 0x61] ++ toLE4 pcm.length ++ pcm

theorem pcmToWav_eq_flat (s : String) (r : Nat) (pcm : List Nat)
    (hdec : atob s = some pcm) :
    pcmToWav s r = some ⟨wavBytesFlat r pcm, "audio/wav"⟩ := by
  have hb : wavHeaderBytes pcm.length r ++ pcm = wavBytesFlat r pcm := by
    rw [wavHeaderBytes_eq]
    simp [wavBytesFlat, List.append_assoc]
  simp [pcmToWav, hdec, hb]

theorem readLE_toLE4 (v : Nat) (h : v < 2 ^ 32) : readLE (toLE4 v) = v := by
  simp only [toLE4, readLE]
  omega

theorem readLE_toLE2 (v : Nat) (h : v < 2 ^ 16) : readLE (toLE2 v) = v := by
  simp only [toLE2, readLE]
  omega

theorem wavHeaderBytes_length (n r : Nat) : (wavHeaderBytes n r).length = 44 := by
  rfl

/-! ## Claims C1, C2, C9 about the encoder -/

/-- C1: for every valid base64 input decoding to n bytes and every
sample rate r with 0 < r < 2^32 (and 36 + n < 2^32 so the 32-bit size
fields hold their values exactly), pcmToWav returns a container of
exactly 44 + n bytes whose header matches the format table byte for
byte; concretely, pcmToWav "AAAA" 24000 has 47 bytes, bytes 24-27 are
the little-endian encoding of 24000 and bytes 28-31 of 48000. -/
theorem C1_header_layout (s : String) (pcm : List Nat) (r : Nat)
    (hdec : atob s = some pcm) (hr : 0 < r) (hr32 : r < 2 ^ 32)
    (hn32 : 36 + pcm.length < 2 ^ 32) :
    (∃ b : JsBlob, pcmToWav s r = some b ∧ b.mime = "audio/wav" ∧
        b.bytes.length = 44 + pcm.length ∧
        b.bytes =
          [0x52, 0x49, 0x46, 0x46] ++ toLE4 (36 + pcm.length) ++
          [0x57, 0x41, 0x56, 0x45] ++ [0x66, 0x6D, 0x74, 0x20] ++
          [16, 0, 0, 0] ++ [1, 0] ++ [1, 0] ++
          toLE4 r ++ toLE4 (2 * r) ++ [2, 0] ++ [16, 0] ++
          [0x64, 0x61, 0x74, 0x61] ++ toLE4 pcm.length ++ pcm) ∧
      atob "AAAA" = some [0, 0, 0] ∧
      (pcmToWav "AAAA" 24000).map (fun b => b.bytes.length) = some 47 ∧
      (pcmToWav "AAAA" 24000).map (fun b => (b.bytes.drop 24).take 4) =
        some (toLE4 24000) ∧
      (pcmToWav "AAAA" 24000).map (fun b => (b.bytes.drop 28).take 4) =
        some (toLE4 48000) := by
  refine ⟨⟨⟨wavHeaderBytes pcm.length r ++ pcm, "audio/wav"⟩, ?_, rfl, ?_, ?_⟩,
    by rfl, by rfl, by rfl, by rfl⟩
  · simp [pcmToWav, hdec]
  · rw [List.length_append, wavHeaderBytes_length]
  · rw [wavHeaderBytes_eq, Nat.mul_comm r 2]

set_option maxHeartbeats 3200000 in
/-- C2: round-trip.  Parsing the container produced by pcmToWav with a
standard WAV reader yields back exactly the original PCM byte sequence
(the bytes after offset 44 are the decoded input unchanged) and reports
sample rate r, 1 channel and 16 bits per sample (for r and the data
length within the 32-bit size fields). -/
theorem C2_roundtrip (s : String) (pcm : List Nat) (r : Nat)
    (hdec : atob s = some pcm) (hr : 0 < r) (hr32 : r < 2 ^ 32)
    (hn32 : pcm.length < 2 ^ 32) :
    ∃ b : JsBlob, pcmToWav s r = some b ∧
      parseWav b.bytes = some ⟨r, 1, 16, pcm⟩ ∧
      b.bytes.drop 44 = pcm := by
  have h24 : ((wavBytesFlat r pcm).drop 24).take 4 = toLE4 r := rfl
  have h40 : ((wavBytesFlat r pcm).drop 40).take 4 = toLE4 pcm.length := rfl
  have h44 : (wavBytesFlat r pcm).drop 44 = pcm := rfl
  have h22 : ((wavBytesFlat r pcm).drop 22).take 2 = [1, 0] := rfl
  have h34 : ((wavBytesFlat r pcm).drop 34).take 2 = [16, 0] := rfl
  have hlen : (wavBytesFlat r pcm).length = 44 + pcm.length := by
    simp [wavBytesFlat, toLE4, toLE2]
    omega
  refine ⟨⟨wavBytesFlat r pcm, "audio/wav"⟩, pcmToWav_eq_flat s r pcm hdec, ?_, h44⟩
  unfold parseWav
  split
  · rw [h22, h24, h34, h40, h44, readLE_toLE4 _ hr32, readLE_toLE4 _ hn32,
      List.take_length]
    rfl
  · next hneg =>
      exact absurd ⟨rfl, rfl, rfl, rfl, rfl, rfl,
        by rw [h40, readLE_toLE4 _ hn32, hlen]⟩ hneg

/-- C9: the encoder defines no error handling of its own.  A malformed
base64 input makes the platform decoder fail and pcmToWav propagates
that failure to the caller (result none exactly when atob fails); for
valid base64 it always returns the container (never throws).  As a
function of its two arguments it is a pure transform. -/
theorem C9_decode_error_propagation :
    (∀ s r, atob s = none → pcmToWav s r = none) ∧
    (∀ s r pcm, atob s = some pcm →
        pcmToWav s r =
          some ⟨wavHeaderBytes pcm.length r ++ pcm, "audio/wav"⟩) ∧
    atob "%%%" = none ∧ pcmToWav "%%%" 24000 = none := by
  refine ⟨fun s r h => by simp [pcmToWav, h],
    fun s r pcm h => by simp [pcmToWav, h], rfl, rfl⟩

/-- Witness for C9 at concrete inputs. -/
theorem C9_decode_error_propagation_witness :
    pcmToWav "%%%" 24000 = none ∧
    pcmToWav "AAAA" 24000 =
      some ⟨wavHeaderBytes 3 24000 ++ [0, 0, 0], "audio/wav"⟩ :=
  ⟨C9_decode_error_propagation.1 "%%%" 24000 rfl,
   C9_decode_error_propagation.2.1 "AAAA" 24000 [0, 0, 0] rfl⟩

/-- Witness for C1 at the concrete scenario input. -/
theorem C1_header_layout_witness :
    ∃ b : JsBlob, pcmToWav "AAAA" 24000 = some b ∧ b.bytes.length = 47 :=
  ((C1_header_layout "AAAA" [0, 0, 0] 24000 (by rfl) (by decide) (by decide)
      (by decide)).1).elim (fun b hb => ⟨b, hb.1, hb.2.2.1⟩)

/-- Witness for C2 at a concrete input: "AQID" decodes to bytes 1 2 3. -/
theorem C2_roundtrip_witness :
    ∃ b : JsBlob, pcmToWav "AQID" 24000 = some b ∧
      parseWav b.bytes = some ⟨24000, 1, 16, [1, 2, 3]⟩ :=
  (C2_roundtrip "AQID" [1, 2, 3] 24000 (by rfl) (by decide) (by decide)
      (by decide)).elim (fun b hb => ⟨b, hb.1, hb.2.1⟩)

/-! ## The Web Audio graph of the Visualizer component

src/components/Visualizer.tsx keeps an AudioContext, an AnalyserNode
and a MediaElementAudioSourceNode in refs.  The graph is modelled as a
list of edges from source-node ids to the analyser or the context
destination.  Media elements and nodes are identified by Nat ids.
Web Audio semantics embedded here: createMediaElementSource throws if
the element is already associated with a source node (the try/catch in
the source tolerates exactly this); node.disconnect() removes every
edge leaving that node and never fails. -/

/-- A connection target in the audio graph. -/
inductive GraphTarget
  | analyserNode
  | destination
deriving DecidableEq

/-- Observable actions of the source-setup effect, in execution order. -/
inductive AudioEvent
  | ctxInit
  | disconnectNode (node : Nat)
  | createSource (node elem : Nat)
  | connect (node : Nat) (target : GraphTarget)
  | createThrew (elem : Nat)
deriving DecidableEq

/-- The state held by the Visualizer refs plus the native graph:
ctxCreated mirrors audioCtxRef.current being non-null, ctxCount and
analyserCount count native constructions, fftSize is the analyser
property, sourceRef mirrors sourceRef.current, elemSources records
which element each created source node belongs to (an element can be
associated with at most one such node for its whole lifetime), edges
is the connection set. -/
structure GraphState where
  ctxCreated : Bool
  ctxCount : Nat
  analyserCount : Nat
  fftSize : Option Nat
  suspended : Bool
  sourceRef : Option Nat
  elemSources : List (Nat × Nat)
  edges : List (Nat × GraphTarget)
  nextNode : Nat
deriving DecidableEq

/-- Page load: no context, no analyser, nothing connected. -/
def initGraph : GraphState :=
  { ctxCreated := false, ctxCount := 0, analyserCount := 0, fftSize := none
    suspended := true, sourceRef := none, elemSources := [], edges := []
    nextNode := 0 }

/-- node.disconnect(): remove every edge leaving the node. -/
def disconnectAll (s : GraphState) (node : Nat) : GraphState :=
  { s with edges := s.edges.filter (fun e => !(e.1 == node)) }

/-- Whether the element already has a media-element source node, in
which case createMediaElementSource throws. -/
def elemHasSource (s : GraphState) (el : Nat) : Bool :=
  s.elemSources.any (fun p => p.2 == el)

/-- The body of the source-setup effect (Visualizer.tsx lines 28-55)
run for a non-null audio element el: lazily create the context and the
analyser with fftSize 256; then, in a try block, disconnect the node
stored in sourceRef if any, create a media-element source for el
(throws, caught and ignored, if el already has one) and connect it to
the analyser and the destination, storing it in sourceRef. -/
def attachBody (s : GraphState) (el : Nat) : GraphState × List AudioEvent :=
  let (s1, e1) :=
    if s.ctxCreated then (s, ([] : List AudioEvent))
    else ({ s with ctxCreated := true, ctxCount := s.ctxCount + 1,
                   analyserCount := s.analyserCount + 1, fftSize := some 256 },
          [AudioEvent.ctxInit])
  let (s2, e2) :=
    match s1.sourceRef with
    | some src => (disconnectAll s1 src, [AudioEvent.disconnectNode src])
    | none => (s1, [])
  if elemHasSource s2 el then
    (s2, e1 ++ e2 ++ [AudioEvent.createThrew el])
  else
    let n := s2.nextNode
    ({ s2 with
        elemSources := (n, el) :: s2.elemSources
        edges := s2.edges ++ [(n, GraphTarget.analyserNode), (n, GraphTarget.destination)]
        sourceRef := some n
        nextNode := n + 1 },
     e1 ++ e2 ++ [AudioEvent.createSource n el,
                  AudioEvent.connect n GraphTarget.analyserNode,
                  AudioEvent.connect n GraphTarget.destination])

/-- The cleanup of the source-setup effect (Visualizer.tsx lines 57-62):
disconnect the stored source node (failures ignored) and null the ref. -/
def sourceCleanup (s : GraphState) : GraphState × List AudioEvent :=
  match s.sourceRef with
  | some src => ({ disconnectAll s src with sourceRef := none },
                 [AudioEvent.disconnectNode src])
  | none => (s, [])

/-- One run of the source-binding effect for element el, as React
executes it when the audioElement dependency changes: the previous
run's cleanup, then the new body. -/
def attachSource (s : GraphState) (el : Nat) : GraphState × List AudioEvent :=
  let (s1, e1) := sourceCleanup s
  let (s2, e2) := attachBody s1 el
  (s2, e1 ++ e2)

/-- audioCtx.resume(), called from the animation effect when the
context is suspended. -/
def resumeCtx (s : GraphState) : GraphState :=
  { s with suspended := false }

/-- Graph states reachable over a page lifetime: attach cycles,
component teardown and playback resumes, from the initial state. -/
inductive ReachGraph : GraphState → Prop
  | init : ReachGraph initGraph
  | attach (s : GraphState) (el : Nat) :
      ReachGraph s → ReachGraph (attachSource s el).1
  | cleanup (s : GraphState) :
      ReachGraph s → ReachGraph (sourceCleanup s).1
  | resume (s : GraphState) :
      ReachGraph s → ReachGraph (resumeCtx s)

/-- Source-node ids created for an element. -/
def nodesOfElem (s : GraphState) (el : Nat) : List Nat :=
  (s.elemSources.filter (fun p => p.2 == el)).map (fun p => p.1)

/-- Number of live edges leaving any of an element's source nodes. -/
def edgeCountFrom (s : GraphState) (el : Nat) : Nat :=
  (s.edges.filter (fun e => (nodesOfElem s el).contains e.1)).length

/-- Edges leaving a given node that enter the analyser. -/
def analyserConnections (s : GraphState) (node : Nat) : Nat :=
  (s.edges.filter
    (fun e => e.1 == node && e.2 == GraphTarget.analyserNode)).length

/-- Invariant of the source-setup effect: every live edge leaves the
node currently stored in sourceRef, and there are no duplicate edges. -/
def GraphInv (s : GraphState) : Prop :=
  (∀ e ∈ s.edges, s.sourceRef = some e.1) ∧ s.edges.Nodup

theorem initGraph_inv : GraphInv initGraph := by
  refine ⟨fun e he => absurd he ?_, ?_⟩ <;> simp [initGraph]

/-- After the effect cleanup no edge is live and the ref is null. -/
theorem sourceCleanup_resets (s : GraphState) (h : GraphInv s) :
    (sourceCleanup s).1.edges = [] ∧ (sourceCleanup s).1.sourceRef = none := by
  obtain ⟨h1, _⟩ := h
  cases hs : s.sourceRef with
  | none =>
      have he : s.edges = [] := by
        cases hedge : s.edges with
        | nil => rfl
        | cons a t =>
            have := h1 a (hedge ▸ List.mem_cons_self a t)
            rw [hs] at this
            cases this
      simp [sourceCleanup, hs, he]
  | some src =>
      simp only [sourceCleanup, hs, disconnectAll]
      refine ⟨List.filter_eq_nil_iff.mpr ?_, trivial⟩
      intro e he
      have := h1 e he
      rw [hs, Option.some.injEq] at this
      simp [this]

/-- Running the effect body from a reset state (null ref, no edges)
restores the invariant. -/
theorem attachBody_inv (s : GraphState) (el : Nat)
    (h1 : s.sourceRef = none) (h2 : s.edges = []) :
    GraphInv (attachBody s el).1 := by
  cases hc : s.ctxCreated <;>
    simp only [attachBody, hc, if_true, if_false, Bool.false_eq_true, ite_true,
      ite_false, h1, h2] <;>
  · split
    · exact ⟨fun e he => absurd he (by simp [h2]), by simp [h2]⟩
    · refine ⟨fun e he => ?_, by simp [h2]⟩
      simp only [h2, List.nil_append, List.mem_cons, List.not_mem_nil,
        or_false] at he
      rcases he with rfl | rfl <;> rfl

theorem attachSource_fst (s : GraphState) (el : Nat) :
    (attachSource s el).1 = (attachBody (sourceCleanup s).1 el).1 := by
  cases hsc : sourceCleanup s with
  | mk s1 e1 =>
      cases hab : attachBody s1 el with
      | mk s2 e2 => simp [attachSource, hsc, hab]

theorem attachSource_snd (s : GraphState) (el : Nat) :
    (attachSource s el).2 =
      (sourceCleanup s).2 ++ (attachBody (sourceCleanup s).1 el).2 := by
  cases hsc : sourceCleanup s with
  | mk s1 e1 =>
      cases hab : attachBody s1 el with
      | mk s2 e2 => simp [attachSource, hsc, hab]

theorem attachSource_inv (s : GraphState) (el : Nat) (h : GraphInv s) :
    GraphInv (attachSource s el).1 := by
  obtain ⟨he, hr⟩ := sourceCleanup_resets s h
  rw [attachSource_fst]
  exact attachBody_inv _ el hr he

theorem reachGraph_inv (s : GraphState) (h : ReachGraph s) : GraphInv s := by
  induction h with
  | init => exact initGraph_inv
  | attach s el _ ih => exact attachSource_inv s el ih
  | cleanup s _ ih =>
      obtain ⟨he, _⟩ := sourceCleanup_resets s ih
      exact ⟨fun e hmem => absurd (he ▸ hmem) (List.not_mem_nil e),
        he ▸ List.nodup_nil⟩
  | resume s _ ih => exact ih


/-! ## Ordering and counting lemmas for the claims -/

/-- Recognize a disconnect action. -/
def isDis : AudioEvent → Bool
  | AudioEvent.disconnectNode _ => true
  | _ => false

/-- Recognize a connect action. -/
def isConn : AudioEvent → Bool
  | AudioEvent.connect _ _ => true
  | _ => false

/-- Every disconnect in the action list happens strictly before every
connect. -/
def DisBeforeConn (l : List AudioEvent) : Prop :=
  ∀ i j ei ej, l.get? i = some ei → isDis ei = true →
    l.get? j = some ej → isConn ej = true → i < j

theorem disBeforeConn_append (l1 l2 : List AudioEvent)
    (h1 : ∀ e ∈ l1, isConn e = false) (h2 : ∀ e ∈ l2, isDis e = false) :
    DisBeforeConn (l1 ++ l2) := by
  intro i j ei ej hi hdi hj hcj
  have hilt : i < l1.length := by
    by_contra hge
    push_neg at hge
    rw [List.get?_append_right hge] at hi
    rw [h2 ei (List.get?_mem hi)] at hdi
    cases hdi
  have hjge : l1.length ≤ j := by
    by_contra hlt
    push_neg at hlt
    rw [List.get?_append hlt] at hj
    rw [h1 ej (List.get?_mem hj)] at hcj
    cases hcj
  omega

theorem sourceCleanup_events_no_conn (s : GraphState) :
    ∀ e ∈ (sourceCleanup s).2, isConn e = false := by
  cases hs : s.sourceRef <;> simp [sourceCleanup, hs, isConn]

theorem attachBody_events_no_dis (s : GraphState) (el : Nat)
    (h : s.sourceRef = none) :
    ∀ e ∈ (attachBody s el).2, isDis e = false := by
  cases hc : s.ctxCreated <;>
    simp only [attachBody, hc, Bool.false_eq_true, ite_true, ite_false, h] <;>
  · split <;> intro e he <;>
      simp only [List.append_nil, List.nil_append, List.cons_append,
        List.mem_cons, List.mem_append, List.not_mem_nil, or_false] at he <;>
      rcases he with rfl | rfl | rfl | rfl <;> rfl

theorem sourceCleanup_ref_none (s : GraphState) :
    (sourceCleanup s).1.sourceRef = none := by
  cases hs : s.sourceRef <;> simp [sourceCleanup, hs, disconnectAll]

theorem attachSource_ordered (s : GraphState) (el : Nat) :
    DisBeforeConn (attachSource s el).2 := by
  rw [attachSource_snd]
  exact disBeforeConn_append _ _ (sourceCleanup_events_no_conn s)
    (attachBody_events_no_dis _ el (sourceCleanup_ref_none s))

theorem length_le_one_of_nodup_all_eq {l : List (Nat × GraphTarget)}
    {a : Nat × GraphTarget} (hn : l.Nodup) (h : ∀ x ∈ l, x = a) :
    l.length ≤ 1 := by
  cases l with
  | nil => simp
  | cons x t =>
      cases t with
      | nil => simp
      | cons y u =>
          exfalso
          have hx := h x (List.mem_cons_self x (y :: u))
          have hy := h y (List.mem_cons_of_mem x (List.mem_cons_self y u))
          rw [List.nodup_cons] at hn
          exact hn.1 (by rw [hx, ← hy]; exact List.mem_cons_self y u)

theorem analyserConnections_le_one (s : GraphState) (h : GraphInv s)
    (node : Nat) : analyserConnections s node ≤ 1 := by
  obtain ⟨_, hnd⟩ := h
  unfold analyserConnections
  refine length_le_one_of_nodup_all_eq (a := (node, GraphTarget.analyserNode))
    (hnd.filter _) ?_
  intro e he
  rw [List.mem_filter] at he
  have hp := he.2
  simp only [Bool.and_eq_true, beq_iff_eq] at hp
  exact Prod.ext hp.1 hp.2

/-! ## Context-creation and fftSize invariants -/

theorem sourceCleanup_ctx (s : GraphState) :
    (sourceCleanup s).1.ctxCreated = s.ctxCreated ∧
    (sourceCleanup s).1.ctxCount = s.ctxCount ∧
    (sourceCleanup s).1.analyserCount = s.analyserCount ∧
    (sourceCleanup s).1.fftSize = s.fftSize := by
  cases hs : s.sourceRef <;> simp [sourceCleanup, hs, disconnectAll]

theorem attachBody_ctx (s : GraphState) (el : Nat) :
    (attachBody s el).1.ctxCreated = true ∧
    (attachBody s el).1.ctxCount =
      (if s.ctxCreated then s.ctxCount else s.ctxCount + 1) ∧
    (attachBody s el).1.analyserCount =
      (if s.ctxCreated then s.analyserCount else s.analyserCount + 1) ∧
    (attachBody s el).1.fftSize =
      (if s.ctxCreated then s.fftSize else some 256) := by
  cases hc : s.ctxCreated <;>
    simp only [attachBody, hc, Bool.false_eq_true, ite_true, ite_false] <;>
  · cases hs : s.sourceRef <;>
      simp only [hs] <;> split <;> simp [disconnectAll, hc]

theorem attachSource_ctx (s : GraphState) (el : Nat) :
    (attachSource s el).1.ctxCreated = true ∧
    (attachSource s el).1.ctxCount =
      (if s.ctxCreated then s.ctxCount else s.ctxCount + 1) ∧
    (attachSource s el).1.analyserCount =
      (if s.ctxCreated then s.analyserCount else s.analyserCount + 1) ∧
    (attachSource s el).1.fftSize =
      (if s.ctxCreated then s.fftSize else some 256) := by
  rw [attachSource_fst]
  obtain ⟨hc, hn, ha, hf⟩ := attachBody_ctx (sourceCleanup s).1 el
  obtain ⟨gc, gn, ga, gf⟩ := sourceCleanup_ctx s
  rw [hc, hn, ha, hf, gc, gn, ga, gf]
  exact ⟨rfl, rfl, rfl, rfl⟩

/-- Combined lazily-created-once invariant: the creation counters track
whether the context exists, the analyser count matches, and the
analyser fftSize is 256 from the moment of creation on. -/
def CtxInv (s : GraphState) : Prop :=
  s.ctxCount = (if s.ctxCreated then 1 else 0) ∧
  s.analyserCount = s.ctxCount ∧
  s.fftSize = (if s.ctxCreated then some 256 else none)

theorem reachGraph_ctxInv (s : GraphState) (h : ReachGraph s) : CtxInv s := by
  induction h with
  | init => exact ⟨rfl, rfl, rfl⟩
  | attach s el _ ih =>
      obtain ⟨h1, h2, h3⟩ := ih
      obtain ⟨hc, hn, ha, hf⟩ := attachSource_ctx s el
      refine ⟨?_, ?_, ?_⟩ <;>
        simp only [hc, hn, ha, hf] <;>
        cases hcc : s.ctxCreated <;> simp_all
  | cleanup s _ ih =>
      obtain ⟨h1, h2, h3⟩ := ih
      obtain ⟨gc, gn, ga, gf⟩ := sourceCleanup_ctx s
      exact ⟨by rw [gn, gc, h1], by rw [ga, gn, h2], by rw [gf, gc, h3]⟩
  | resume s _ ih => exact ih

/-! ## Claim C3 (corrected): attaching the same element twice -/

/-- C3 counterexample: the claim says a second attach of the same
element leaves the edge count at 2, but in the code the second run
first disconnects the stored source node (removing both of the
element's edges) and then createMediaElementSource throws (the element
is already associated), which the catch swallows without reconnecting:
the edge count is 0, not 2. -/
theorem C3_attach_twice_counterexample :
    ¬ edgeCountFrom (attachSource (attachSource initGraph 1).1 1).1 1 = 2 := by
  decide

/-- C3 amended: attaching element 1 for the first time creates exactly
its two edges (to the analyser and to the destination); attaching the
same element again tolerates the native re-attach exception but leaves
zero connections from that element, because the pre-create disconnect
removed them and the thrown create prevents reconnection.  No
duplicate audio path ever exists: at most one analyser connection per
node in both states. -/
theorem C3_attach_twice_amended :
    edgeCountFrom (attachSource initGraph 1).1 1 = 2 ∧
    edgeCountFrom (attachSource (attachSource initGraph 1).1 1).1 1 = 0 ∧
    AudioEvent.createThrew 1 ∈ (attachSource (attachSource initGraph 1).1 1).2 ∧
    (∀ node, analyserConnections (attachSource initGraph 1).1 node ≤ 1) ∧
    (∀ node,
      analyserConnections (attachSource (attachSource initGraph 1).1 1).1 node ≤ 1) := by
  refine ⟨by decide, by decide, by decide, fun node => ?_, fun node => ?_⟩
  · exact analyserConnections_le_one _
      (attachSource_inv _ _ initGraph_inv) node
  · exact analyserConnections_le_one _
      (attachSource_inv _ _ (attachSource_inv _ _ initGraph_inv)) node

/-! ## Claim C5: disconnect strictly before connect, one live path -/

/-- C5: whenever the bound media element changes, the effect run
disconnects the previously bound source node strictly before any new
connect action (failures tolerated: the action list is exactly what
executes); the invariant that every live edge leaves the currently
stored source node is preserved, holds in every reachable state, and
implies at most one live connection into the shared analyser from any
given source node at all times. -/
theorem C5_disconnect_before_connect (s : GraphState) (el : Nat)
    (hinv : GraphInv s) :
    DisBeforeConn (attachSource s el).2 ∧
    GraphInv (attachSource s el).1 ∧
    (∀ t, ReachGraph t → GraphInv t) ∧
    (∀ node, analyserConnections s node ≤ 1) ∧
    (∀ node, analyserConnections (attachSource s el).1 node ≤ 1) := by
  refine ⟨attachSource_ordered s el, attachSource_inv s el hinv,
    reachGraph_inv, fun node => analyserConnections_le_one s hinv node,
    fun node => analyserConnections_le_one _ (attachSource_inv s el hinv) node⟩

/-- Witness for C5 on the state after one attach. -/
theorem C5_disconnect_before_connect_witness :
    DisBeforeConn (attachSource (attachSource initGraph 1).1 2).2 ∧
    GraphInv (attachSource (attachSource initGraph 1).1 2).1 :=
  ⟨(C5_disconnect_before_connect (attachSource initGraph 1).1 2
      (by constructor <;> decide)).1,
   (C5_disconnect_before_connect (attachSource initGraph 1).1 2
      (by constructor <;> decide)).2.1⟩

/-! ## Claim C6: the processing context is a lazy singleton -/

/-- C6: the context and analyser are created lazily on the first attach
and exactly once per page lifetime.  In every reachable state the
number of context constructions is 0 before creation and exactly 1
after, the analyser count equals it, and any further attach leaves the
context created with its construction count still 1. -/
theorem C6_context_singleton (s : GraphState) (h : ReachGraph s) :
    s.ctxCount = (if s.ctxCreated then 1 else 0) ∧
    s.analyserCount = s.ctxCount ∧
    initGraph.ctxCreated = false ∧
    (∀ el, (attachSource s el).1.ctxCreated = true ∧
      (attachSource s el).1.ctxCount = 1) := by
  obtain ⟨h1, h2, _⟩ := reachGraph_ctxInv s h
  refine ⟨h1, h2, rfl, fun el => ?_⟩
  obtain ⟨hc, hn, _, _⟩ := attachSource_ctx s el
  refine ⟨hc, ?_⟩
  rw [hn, h1]
  cases s.ctxCreated <;> simp

/-- Witness for C6 at the initial state. -/
theorem C6_context_singleton_witness :
    initGraph.ctxCount = (if initGraph.ctxCreated then 1 else 0) ∧
    (attachSource initGraph 7).1.ctxCreated = true ∧
    (attachSource initGraph 7).1.ctxCount = 1 :=
  ⟨(C6_context_singleton initGraph ReachGraph.init).1,
   ((C6_context_singleton initGraph ReachGraph.init).2.2.2 7).1,
   ((C6_context_singleton initGraph ReachGraph.init).2.2.2 7).2⟩

/-! ## Claim C7: fixed fftSize 256, frames of 128 byte-sized bins -/

/-- frequencyBinCount of the analyser: half the fftSize. -/
def frequencyBinCount (s : GraphState) : Option Nat :=
  s.fftSize.map (fun f => f / 2)

/-- One FrequencyFrame as produced per animation tick: the analyser
fills a Uint8Array of length frequencyBinCount with byte magnitudes
(getByteFrequencyData); sample gives the environment-provided signal
and each stored value is an unsigned 8-bit integer. -/
def freqFrame (s : GraphState) (sample : Nat → Nat) : Option (List Nat) :=
  (frequencyBinCount s).map
    (fun n => (List.range n).map (fun i => sample i % 256))

/-- C7: the analyser fftSize is 256 from creation and never changes in
any reachable state, so every FrequencyFrame is an ordered sequence of
exactly 128 unsigned 8-bit magnitude samples. -/
theorem C7_fft_fixed (s : GraphState) (h : ReachGraph s)
    (hc : s.ctxCreated = true) :
    s.fftSize = some 256 ∧
    (∀ el, (attachSource s el).1.fftSize = some 256) ∧
    (∀ t, ReachGraph t → t.ctxCreated = true → t.fftSize = some 256) ∧
    (∀ sample, ∃ fr, freqFrame s sample = some fr ∧ fr.length = 128 ∧
      ∀ b ∈ fr, b < 256) := by
  have hfix : ∀ t, ReachGraph t → t.ctxCreated = true → t.fftSize = some 256 := by
    intro t ht htc
    obtain ⟨_, _, h3⟩ := reachGraph_ctxInv t ht
    rw [h3, htc]
    rfl
  have hs : s.fftSize = some 256 := hfix s h hc
  refine ⟨hs, fun el => ?_, hfix, fun sample => ?_⟩
  · obtain ⟨_, _, _, hf⟩ := attachSource_ctx s el
    rw [hf, hc, if_pos rfl, hs]
  · refine ⟨(List.range 128).map (fun i => sample i % 256), ?_, ?_, ?_⟩
    · simp [freqFrame, frequencyBinCount, hs]
    · simp
    · intro b hb
      rw [List.mem_map] at hb
      obtain ⟨i, _, rfl⟩ := hb
      exact Nat.mod_lt _ (by norm_num)

/-- Witness for C7 on the state after the first attach. -/
theorem C7_fft_fixed_witness :
    (attachSource initGraph 1).1.fftSize = some 256 ∧
    (∃ fr, freqFrame (attachSource initGraph 1).1 (fun i => i) = some fr ∧
      fr.length = 128 ∧ ∀ b ∈ fr, b < 256) :=
  ⟨(C7_fft_fixed (attachSource initGraph 1).1
      (ReachGraph.attach initGraph 1 ReachGraph.init) (by decide)).1,
   (C7_fft_fixed (attachSource initGraph 1).1
      (ReachGraph.attach initGraph 1 ReachGraph.init) (by decide)).2.2.2
     (fun i => i)⟩

/-! ## The animation loop of the Visualizer component

The animation effect (Visualizer.tsx lines 66-112) runs when the
isPlaying prop changes.  The host scheduler is modelled explicitly:
pending holds the requestAnimationFrame callbacks not yet fired or
cancelled, each with the isPlaying value its render closure captured;
animationRef mirrors animationRef.current; cleared records whether the
last surface operation was the full clearRect with nothing drawn after
it; ticks counts render executions.  The early return when the canvas
or analyser ref is null is the pre-attach no-op case: frames are only
ever scheduled after an audio element exists, which is the situation
the machine models. -/

structure AnimState where
  isPlaying : Bool
  animationRef : Option Nat
  pending : List (Nat × Bool)
  nextCb : Nat
  cleared : Bool
  ticks : Nat
deriving DecidableEq

/-- Mount state: not playing, nothing scheduled, blank canvas. -/
def initAnim : AnimState :=
  { isPlaying := false, animationRef := none, pending := [], nextCb := 0
    cleared := true, ticks := 0 }

/-- One execution of the render closure with captured isPlaying p:
draw the bars (clearRect then fillRect per bin: the surface is not
left cleared), and if p request the next frame, storing its id in
animationRef. -/
def renderStep (p : Bool) (s : AnimState) : AnimState :=
  let s1 := { s with ticks := s.ticks + 1, cleared := false }
  if p then
    { s1 with pending := s1.pending ++ [(s1.nextCb, p)]
              animationRef := some s1.nextCb
              nextCb := s1.nextCb + 1 }
  else s1

/-- cancelAnimationFrame: remove the callback with the given id (a
no-op if it is not pending). -/
def cancelAnim (s : AnimState) (id : Nat) : AnimState :=
  { s with pending := s.pending.filter (fun c => !(c.1 == id)) }

/-- The effect cleanup (lines 109-111): cancel the frame stored in
animationRef, if any. -/
def animCleanup (s : AnimState) : AnimState :=
  match s.animationRef with
  | some id => cancelAnim s id
  | none => s

/-- The effect body for the new isPlaying value p (lines 67-107): if
playing, run render once (which self-schedules); otherwise cancel the
frame stored in animationRef and clear the canvas. -/
def animBody (p : Bool) (s : AnimState) : AnimState :=
  let s1 := { s with isPlaying := p }
  if p then renderStep true s1
  else
    let s2 :=
      match s1.animationRef with
      | some id => cancelAnim s1 id
      | none => s1
    { s2 with cleared := true }

/-- React re-runs the effect on an isPlaying transition: previous
cleanup, then the body with the new value. -/
def startAnim (s : AnimState) : AnimState := animBody true (animCleanup s)

def stopAnim (s : AnimState) : AnimState := animBody false (animCleanup s)

/-- The scheduler fires a pending frame callback: it is removed from
the pending set and the render closure runs with its captured
isPlaying value. -/
def fireFrame (s : AnimState) (id : Nat) : AnimState :=
  match s.pending.find? (fun c => c.1 == id) with
  | some c => renderStep c.2 (cancelAnim s id)
  | none => s

/-- Animation states reachable from mount: isPlaying transitions (the
effect only re-runs when the prop actually changes) and scheduler
ticks. -/
inductive ReachAnim : AnimState → Prop
  | init : ReachAnim initAnim
  | start (s : AnimState) : ReachAnim s → s.isPlaying = false →
      ReachAnim (startAnim s)
  | stop (s : AnimState) : ReachAnim s → s.isPlaying = true →
      ReachAnim (stopAnim s)
  | fire (s : AnimState) (id : Nat) : ReachAnim s → ReachAnim (fireFrame s id)

/-- Scheduler invariant: when not playing nothing is pending; at most
one callback is outstanding, its captured flag is true and its id is
the one stored in animationRef. -/
def AnimInv (s : AnimState) : Prop :=
  (s.isPlaying = false → s.pending = []) ∧
  (∀ c ∈ s.pending, c.2 = true ∧ s.animationRef = some c.1) ∧
  s.pending.length ≤ 1

theorem animCleanup_pending (s : AnimState) (h : AnimInv s) :
    (animCleanup s).pending = [] := by
  obtain ⟨_, h2, _⟩ := h
  cases hr : s.animationRef with
  | none =>
      cases hp : s.pending with
      | nil => simp [animCleanup, hr, hp]
      | cons c t =>
          have := (h2 c (hp ▸ List.mem_cons_self c t)).2
          rw [hr] at this
          cases this
  | some id =>
      simp only [animCleanup, hr, cancelAnim]
      refine List.filter_eq_nil_iff.mpr ?_
      intro c hc
      have := (h2 c hc).2
      rw [hr, Option.some.injEq] at this
      simp [this]

theorem stopAnim_state (s : AnimState) (h : AnimInv s) :
    (stopAnim s).pending = [] ∧ (stopAnim s).cleared = true ∧
    (stopAnim s).isPlaying = false := by
  have hp := animCleanup_pending s h
  unfold stopAnim animBody
  cases hr : (animCleanup s).animationRef <;>
    simp [hr, cancelAnim, hp]

theorem startAnim_state (s : AnimState) (h : AnimInv s) :
    (startAnim s).pending = [((animCleanup s).nextCb, true)] ∧
    (startAnim s).animationRef = some (animCleanup s).nextCb ∧
    (startAnim s).isPlaying = true := by
  have hp := animCleanup_pending s h
  unfold startAnim animBody renderStep
  simp [hp]

theorem length_le_one_mem_eq {l : List (Nat × Bool)} {c : Nat × Bool}
    (hlen : l.length ≤ 1) (hc : c ∈ l) : l = [c] := by
  cases l with
  | nil => cases hc
  | cons a t =>
      cases t with
      | nil =>
          have : c = a := by simpa using hc
          rw [this]
      | cons b u => simp at hlen

theorem reachAnim_inv (s : AnimState) (h : ReachAnim s) : AnimInv s := by
  induction h with
  | init =>
      exact ⟨fun _ => rfl, fun c hc => absurd hc (List.not_mem_nil c), by decide⟩
  | start s _ _ ih =>
      obtain ⟨hpe, hrefr, hpl⟩ := startAnim_state s ih
      refine ⟨fun hfalse => ?_, fun c hc => ?_, ?_⟩
      · rw [hpl] at hfalse
        cases hfalse
      · rw [hpe] at hc
        have : c = ((animCleanup s).nextCb, true) := by simpa using hc
        rw [this]
        exact ⟨rfl, hrefr⟩
      · rw [hpe]
        simp
  | stop s _ _ ih =>
      obtain ⟨hpe, _, _⟩ := stopAnim_state s ih
      exact ⟨fun _ => hpe, fun c hc => absurd (hpe ▸ hc) (List.not_mem_nil c),
        by rw [hpe]; simp⟩
  | fire s id _ ih =>
      obtain ⟨h1, h2, h3⟩ := ih
      cases hf : s.pending.find? (fun c => c.1 == id) with
      | none =>
          have hid : fireFrame s id = s := by simp [fireFrame, hf]
          rw [hid]
          exact ⟨h1, h2, h3⟩
      | some c =>
          have hcmem : c ∈ s.pending := List.mem_of_find?_eq_some hf
          have hcid : c.1 = id := by simpa using List.find?_some hf
          have hplay : s.isPlaying = true := by
            cases hpl : s.isPlaying
            · rw [h1 hpl] at hcmem
              cases hcmem
            · rfl
          have hsingle : s.pending = [c] := length_le_one_mem_eq h3 hcmem
          have hcancel : (cancelAnim s id).pending = [] := by
            simp [cancelAnim, hsingle, hcid]
          have hff : fireFrame s id = renderStep true (cancelAnim s id) := by
            simp [fireFrame, hf, (h2 c hcmem).1]
          have hrs : renderStep true (cancelAnim s id) =
              { cancelAnim s id with
                  ticks := (cancelAnim s id).ticks + 1
                  cleared := false
                  pending := [((cancelAnim s id).nextCb, true)]
                  animationRef := some (cancelAnim s id).nextCb
                  nextCb := (cancelAnim s id).nextCb + 1 } := by
            simp [renderStep, hcancel]
          rw [hff, hrs]
          refine ⟨fun hfalse => ?_, fun d hd => ?_, by simp⟩
          · simp only [cancelAnim] at hfalse
            rw [hplay] at hfalse
            cases hfalse
          · have : d = ((cancelAnim s id).nextCb, true) := by simpa using hd
            rw [this]
            exact ⟨rfl, rfl⟩

/-! ## Claim C4: stopping cancels the frame loop and clears the canvas -/

/-- C4: in every reachable animation state, while isPlaying is false no
frame callback is pending; when isPlaying is true, the true→false
effect run cancels the in-flight scheduled callback (zero outstanding
afterwards) and clears the drawing surface, and no further frame tick
can occur: firing any callback id after the stop changes nothing. -/
theorem C4_stop_cancels_frames (s : AnimState) (h : ReachAnim s) :
    (s.isPlaying = false → s.pending = []) ∧
    (s.isPlaying = true →
      (stopAnim s).pending = [] ∧ (stopAnim s).cleared = true ∧
      (stopAnim s).isPlaying = false ∧
      (∀ id, fireFrame (stopAnim s) id = stopAnim s)) := by
  obtain ⟨h1, h2, h3⟩ := reachAnim_inv s h
  refine ⟨h1, fun hp => ?_⟩
  obtain ⟨hpe, hcl, hpl⟩ := stopAnim_state s ⟨h1, h2, h3⟩
  exact ⟨hpe, hcl, hpl, fun id => by simp [fireFrame, hpe]⟩

/-- Witness for C4: start playback, let one frame fire, then stop. -/
theorem C4_stop_cancels_frames_witness :
    (stopAnim (fireFrame (startAnim initAnim) 0)).pending = [] ∧
    (stopAnim (fireFrame (startAnim initAnim) 0)).cleared = true :=
  ⟨((C4_stop_cancels_frames (fireFrame (startAnim initAnim) 0)
      (ReachAnim.fire (startAnim initAnim) 0
        (ReachAnim.start initAnim ReachAnim.init rfl))).2 (by decide)).1,
   ((C4_stop_cancels_frames (fireFrame (startAnim initAnim) 0)
      (ReachAnim.fire (startAnim initAnim) 0
        (ReachAnim.start initAnim ReachAnim.init rfl))).2 (by decide)).2.1⟩

/-! ## Claim C8: bar geometry and color of the render loop

The bar loop of render (Visualizer.tsx lines 83-90), over exact
rational arithmetic: barWidth = (w / length) * 2.5, each bin m is drawn
as a fillRect at x (advancing by barWidth + 2 per bin) with height
(m / 255) * h * 0.8, top h - barHeight - 10, and fill color
rgb(100 + m, 92, 246). -/

/-- Bar height for bin magnitude m on a canvas of height h. -/
def barHeight (m : Nat) (h : ℚ) : ℚ := ((m : ℚ) / 255) * h * (8 / 10)

/-- One fillRect call: position, size and fill color channels. -/
structure BarRect where
  x : ℚ
  y : ℚ
  width : ℚ
  height : ℚ
  color : Nat × Nat × Nat
deriving DecidableEq

/-- The loop body, accumulating the x coordinate exactly as the source
does (x starts at 0 and advances by barWidth + 2 per bin). -/
def renderBarsAux (h bw : ℚ) (x : ℚ) : List Nat → List BarRect
  | [] => []
  | m :: rest =>
      { x := x, y := h - barHeight m h - 10, width := bw,
        height := barHeight m h, color := (100 + m, 92, 246) } ::
      renderBarsAux h bw (x + (bw + 2)) rest

/-- The fillRect calls of one render pass over the frequency data. -/
def renderBars (data : List Nat) (w h : ℚ) : List BarRect :=
  renderBarsAux h ((w / (data.length : ℚ)) * (5 / 2)) 0 data

theorem renderBarsAux_get? (h bw : ℚ) (data : List Nat) :
    ∀ (x : ℚ) (i m : Nat), data.get? i = some m →
      ∃ b : BarRect, (renderBarsAux h bw x data).get? i = some b ∧
        b.height = ((m : ℚ) / 255) * h * (8 / 10) ∧
        b.color = (100 + m, 92, 246) ∧ b.width = bw := by
  induction data with
  | nil => intro x i m hi; cases hi
  | cons a t ih =>
      intro x i m hi
      cases i with
      | zero =>
          rw [List.get?_cons_zero, Option.some.injEq] at hi
          exact ⟨_, rfl, by rw [hi]; rfl, by rw [hi], rfl⟩
      | succ k =>
          rw [List.get?_cons_succ] at hi
          exact ih (x + (bw + 2)) k m hi

/-- C8: every frequency bin with magnitude m rendered in a frame on a
canvas of height h becomes a bar of height (m / 255) * h * 0.8 whose
fill color has red channel 100 + m with green and blue fixed at 92 and
246; the red channel is not clamped, so magnitudes above 155 exceed
the valid 0-255 channel range. -/
theorem C8_bar_height_color (data : List Nat) (w h : ℚ) (i m : Nat)
    (hget : data.get? i = some m) (hm : m ≤ 255) :
    ∃ b : BarRect, (renderBars data w h).get? i = some b ∧
      b.height = ((m : ℚ) / 255) * h * (8 / 10) ∧
      b.color = (100 + m, 92, 246) ∧
      (155 < m → 255 < (100 + m, 92, 246).1) := by
  obtain ⟨b, hb, hh, hc, _⟩ :=
    renderBarsAux_get? h ((w / (data.length : ℚ)) * (5 / 2)) data 0 i m hget
  exact ⟨b, hb, hh, hc, fun hlt => by simp only [Prod.fst]; omega⟩

/-- Witness for C8 at a concrete frame: one bin of magnitude 200 (the
red channel 300 exceeds 255). -/
theorem C8_bar_height_color_witness :
    ∃ b : BarRect, (renderBars [200] 800 200).get? 0 = some b ∧
      b.height = ((200 : ℚ) / 255) * 200 * (8 / 10) ∧
      b.color = (300, 92, 246) :=
  (C8_bar_height_color [200] 800 200 0 200 rfl (by decide)).elim
    (fun b hb => ⟨b, hb.1, hb.2.1, hb.2.2.1⟩)

/-! ## Claim C10: apiGenerateSpeech rejects empty input up front

src/services/geminiService.ts, apiGenerateSpeech: the function throws
"Cannot generate speech: input text is empty." when the input is empty
or trims to nothing, before getClient is called, before the remote
model is contacted and before pcmToWav runs.  The remote interaction is
modelled by its two observable outcomes (a base64 payload or none with
a finish reason), and the executed external steps are recorded. -/

/-- Whitespace removed by the JavaScript String.prototype.trim: the
full ECMAScript WhiteSpace and LineTerminator sets — TAB, LF, VT, FF,
CR, SPACE, NBSP, OGHAM SPACE MARK, the EN QUAD to HAIR SPACE range,
LINE SEPARATOR, PARAGRAPH SEPARATOR, NARROW NO-BREAK SPACE, MEDIUM
MATHEMATICAL SPACE, IDEOGRAPHIC SPACE and ZERO WIDTH NO-BREAK SPACE. -/
def jsWhitespaceChar (c : Char) : Bool :=
  c = '\t' || c = '\n' || c = '\u000b' || c = '\u000c' || c = '\r' ||
  c = ' ' || c = ' ' || c = ' ' ||
  (' ' ≤ c && c ≤ ' ') ||
  c = ' ' || c = ' ' || c = ' ' || c = ' ' ||
  c = '　' || c = '﻿'

/-- String.prototype.trim: drop leading and trailing whitespace. -/
def jsTrim (s : String) : String :=
  String.mk (((s.data.dropWhile jsWhitespaceChar).reverse.dropWhile
    jsWhitespaceChar).reverse)

/-- External steps apiGenerateSpeech can take, in order. -/
inductive SpeechStep
  | clientConstructed
  | remoteCalled
  | encoderInvoked
deriving DecidableEq

/-- What the remote speech model returned: an inlineData base64 payload
or none, plus the candidate finish reason. -/
structure RemoteAudioResponse where
  pcmBase64 : Option String
  finishReason : String

/-- apiGenerateSpeech (geminiService.ts): reject empty or
whitespace-only text before doing anything else; then construct the
client (throws if the API key is absent), call the speech model, and
on a payload hand it to pcmToWav at the fixed rate 24000.  The retry
wrapper only repeats the same operation and is transparent to these
outcomes. -/
def apiGenerateSpeech (apiKey : Option String) (remote : RemoteAudioResponse)
    (text : String) : Except String JsBlob × List SpeechStep :=
  if text = "" ∨ (jsTrim text).length = 0 then
    (Except.error "Cannot generate speech: input text is empty.", [])
  else
    match apiKey with
    | none =>
        (Except.error "API Key is missing. process.env.API_KEY must be set.",
         [])
    | some _ =>
        match remote.pcmBase64 with
        | none =>
            (Except.error
              ("Audio generation failed. Reason: " ++ remote.finishReason),
             [SpeechStep.clientConstructed, SpeechStep.remoteCalled])
        | some b64 =>
            match pcmToWav b64 24000 with
            | none =>
                (Except.error "InvalidCharacterError",
                 [SpeechStep.clientConstructed, SpeechStep.remoteCalled,
                  SpeechStep.encoderInvoked])
            | some blob =>
                (Except.ok blob,
                 [SpeechStep.clientConstructed, SpeechStep.remoteCalled,
                  SpeechStep.encoderInvoked])

/-- C10: for every input that is empty or consists only of whitespace,
apiGenerateSpeech fails with the fixed message and takes no external
step: the client is never constructed, the remote speech service is
never contacted and the encoder is never invoked. -/
theorem C10_empty_text_rejected (apiKey : Option String)
    (remote : RemoteAudioResponse) (text : String)
    (hws : ∀ c ∈ text.data, jsWhitespaceChar c = true) :
    apiGenerateSpeech apiKey remote text =
      (Except.error "Cannot generate speech: input text is empty.", []) := by
  have htrim : (jsTrim text).length = 0 := by
    have hdrop : text.data.dropWhile jsWhitespaceChar = [] :=
      List.dropWhile_eq_nil_iff.mpr (fun c hc => hws c hc)
    simp [jsTrim, hdrop]
  unfold apiGenerateSpeech
  rw [if_pos (Or.inr htrim)]

/-- Witness for C10 on a whitespace-only input mixing an ASCII space
with an ideographic space (U+3000, the standard space of Japanese
text, which this app handles). -/
theorem C10_empty_text_rejected_witness :
    apiGenerateSpeech none ⟨none, "STOP"⟩ " 　 " =
      (Except.error "Cannot generate speech: input text is empty.", []) :=
  C10_empty_text_rejected none ⟨none, "STOP"⟩ " 　 " (by decide)

end Visionary
